import Mathlib

/-!
Shallow embedding of the dnsconfig repository: the resolv.conf parser
(`dnsReadConfig`), the default-search deriver (`dnsDefaultSearch`) and the
name-list expander (`nameList` / `avoidDNS`), together with theorems checking
the specification against it.

Go strings are modelled as lists of characters (`GoStr`); the external
collaborators (file opening and line reading, the hostname provider, the
literal-IP test of `netip.ParseAddr`) are passed as explicit parameters.
-/

namespace Dnsconfig

/-- Model of a Go string: a list of characters. -/
abbrev GoStr := List Char

/-- Coercion from a Lean string literal to the model. -/
def gs (s : String) : GoStr := s.toList

/-- Whitespace characters separating fields of a resolv.conf line. -/
def isSpaceChar (c : Char) : Bool := c = ' ' || c = '\t' || c = '\r' || c = '\n'

/-- Modelled from the spec: the Text Tokenizer `getFields` is not among the
sources (only its call sites are); per the spec it returns "the sequence of
whitespace-delimited fields" of a line, and an empty line yields no fields. -/
def getFields (s : GoStr) : List GoStr :=
  (List.splitOnP isSpaceChar s).filter (fun f => !f.isEmpty)

/-- Modelled from the spec: the decimal parser `dtoi` used by the Option
Parser is not among the sources; per the spec, "parse N as decimal; on parse
failure, treat as 0", so this returns the value of the leading digit run of
the string and 0 when there is none. -/
def dtoi (s : GoStr) : Nat :=
  (s.takeWhile (fun c => c.isDigit)).foldl (fun n c => n * 10 + (c.toNat - 48)) 0

/-- ASCII lower-casing of one character. -/
def lowerASCII (c : Char) : Char :=
  if 'A' ≤ c ∧ c ≤ 'Z' then Char.ofNat (c.toNat + 32) else c

/-- Modelled from the spec: `stringsHasSuffixFold`, the suffix test used by
the `.onion` exclusion, is not among the sources; per the spec the suffix is
"checked case-insensitively", so this tests the suffix relation after ASCII
case folding of both strings. -/
def hasSuffixFold (s suffix : GoStr) : Bool :=
  (suffix.map lowerASCII).isSuffixOf (s.map lowerASCII)

/-- Embeds the repository helper `hasPrefix`: byte-wise prefix test. -/
def hasPfx (s pfx : GoStr) : Bool :=
  decide (pfx.length ≤ s.length) && s.take pfx.length == pfx

/-- Does the string end in a dot (Go: `len(s) > 0 && s[len(s)-1] == '.'`)? -/
def isRooted (s : GoStr) : Bool := s.getLast? == some '.'

/-- Embeds `ensureRooted`: append a trailing dot unless one is present. -/
def ensureRooted (s : GoStr) : GoStr :=
  if isRooted s then s else s ++ ['.']

/-- Embeds `strings.Count(name, ".")`: the number of dots in the name. -/
def countDots (s : GoStr) : Nat := s.countP (fun c => c = '.')

/-- Embeds `avoidDNS`: hostnames for which DNS must not be used, currently
the empty name and names under `.onion` (one trailing root dot ignored). -/
def avoidDNS (name : GoStr) : Bool :=
  if name.isEmpty then true
  else
    let name := if isRooted name then name.dropLast else name
    hasSuffixFold name (gs ".onion")

/-- Embeds `net.JoinHostPort`: bracket the host when it contains a colon. -/
def joinHostPort (host port : GoStr) : GoStr :=
  if host.contains ':' then '[' :: (host ++ (']' :: ':' :: port))
  else host ++ (':' :: port)

/-- Embeds `defaultNS`: the fallback name-server endpoints. -/
def defaultNS : List GoStr := [gs "127.0.0.1:53", gs "[::1]:53"]

/-- One second of Go `time.Duration`, in nanoseconds. -/
def second : Nat := 1000000000

/-- Embeds the `DnsConfig` record; `Err` models whether the `err` field is
non-nil and `Mtime` models the modification timestamp (0 when never set). -/
structure DnsConfig where
  Servers : List GoStr := []
  Search : List GoStr := []
  Ndots : Nat := 0
  Timeout : Nat := 0
  Attempts : Nat := 0
  Rotate : Bool := false
  UnknownOpt : Bool := false
  Lookup : List GoStr := []
  Err : Bool := false
  Mtime : Nat := 0
  SingleRequest : Bool := false
  UseTCP : Bool := false
  TrustAD : Bool := false
  NoReload : Bool := false
  deriving Repr, DecidableEq

/-- Embeds `strings.IndexByte`: the index of the first occurrence of a
character, `none` standing for the Go result -1. -/
def indexByte : GoStr → Char → Option Nat
  | [], _ => none
  | c :: t, b => if c = b then some 0 else (indexByte t b).map (· + 1)

/-- Embeds `dnsDefaultSearch`; the hostname provider is passed explicitly,
`none` meaning that it returned an error. The Go bound `i < len(hn)-1` is
taken over ints with `i ≥ 0`, hence it equals `i + 1 < hn.length` here. -/
def dnsDefaultSearch (hostname : Option GoStr) : List GoStr :=
  match hostname with
  | none => []
  | some hn =>
    match indexByte hn '.' with
    | some i => if i + 1 < hn.length then [ensureRooted (hn.drop (i + 1))] else []
    | none => []

/-- Embeds the inner `options` switch of `dnsReadConfig` for one option
token (the `n < 0` branch of `ndots` is vacuous since `dtoi` never returns a
negative value). -/
def processOption (conf : DnsConfig) (s : GoStr) : DnsConfig :=
  if hasPfx s (gs "ndots:") then
    let n := dtoi (s.drop 6)
    { conf with Ndots := if n > 15 then 15 else n }
  else if hasPfx s (gs "timeout:") then
    let n := dtoi (s.drop 8)
    { conf with Timeout := (if n < 1 then 1 else n) * second }
  else if hasPfx s (gs "attempts:") then
    let n := dtoi (s.drop 9)
    { conf with Attempts := if n < 1 then 1 else n }
  else if s = gs "rotate" then { conf with Rotate := true }
  else if s = gs "single-request" ∨ s = gs "single-request-reopen" then
    { conf with SingleRequest := true }
  else if s = gs "use-vc" ∨ s = gs "usevc" ∨ s = gs "tcp" then
    { conf with UseTCP := true }
  else if s = gs "trust-ad" then { conf with TrustAD := true }
  else if s = gs "edns0" then conf
  else if s = gs "no-reload" then { conf with NoReload := true }
  else { conf with UnknownOpt := true }

/-- Embeds the body of the line loop of `dnsReadConfig`: skip comments,
tokenize, dispatch on the first field. `isIPAddr` stands for the test
`netip.ParseAddr(f[1])` succeeding. -/
def processLine (isIPAddr : GoStr → Bool) (conf : DnsConfig) (line : GoStr) : DnsConfig :=
  if line.head? = some ';' ∨ line.head? = some '#' then conf
  else
    match getFields line with
    | [] => conf
    | f0 :: args =>
      if f0 = gs "nameserver" then
        match args with
        | a1 :: _ =>
          if conf.Servers.length < 3 ∧ isIPAddr a1 then
            { conf with Servers := conf.Servers ++ [joinHostPort a1 (gs "53")] }
          else conf
        | [] => conf
      else if f0 = gs "domain" then
        match args with
        | a1 :: _ => { conf with Search := [ensureRooted a1] }
        | [] => conf
      else if f0 = gs "search" then
        { conf with Search := args.filterMap (fun a =>
            let name := ensureRooted a
            if name = gs "." then none else some name) }
      else if f0 = gs "options" then
        args.foldl processOption conf
      else if f0 = gs "lookup" then
        { conf with Lookup := args }
      else { conf with UnknownOpt := true }

/-- Embeds `dnsReadConfig`. The line-source collaborator is passed as
`input`: `none` models a failing `open`; `some (none, lines)` an open that
succeeds but whose `Stat` fails; `some (some t, lines)` a source with
modification time `t` whose lines are `lines`. -/
def dnsReadConfig (isIPAddr : GoStr → Bool) (hostname : Option GoStr)
    (input : Option (Option Nat × List GoStr)) : DnsConfig :=
  let conf : DnsConfig := { Ndots := 1, Timeout := 5 * second, Attempts := 2 }
  match input with
  | none =>
    { conf with Servers := defaultNS, Search := dnsDefaultSearch hostname, Err := true }
  | some (none, _) =>
    { conf with Servers := defaultNS, Search := dnsDefaultSearch hostname, Err := true }
  | some (some t, lines) =>
    let conf := lines.foldl (processLine isIPAddr) { conf with Mtime := t }
    let conf := if conf.Servers.isEmpty then { conf with Servers := defaultNS } else conf
    if conf.Search.isEmpty then { conf with Search := dnsDefaultSearch hostname } else conf

/-- Embeds `nameList`: the ordered list of names for sequential DNS queries
derived from a query name and the configuration; `none` models a nil slice,
`some` the (possibly empty) built slice. -/
def nameList (conf : DnsConfig) (name : GoStr) : Option (List GoStr) :=
  let l := name.length
  let rooted := isRooted name
  if l > 254 ∨ (l = 254 ∧ rooted = false) then none
  else if rooted = true then
    if avoidDNS name then none else some [name]
  else
    let hasNdots := conf.Ndots ≤ countDots name
    let name' := name ++ ['.']
    let names : List GoStr := if hasNdots ∧ avoidDNS name' = false then [name'] else []
    let names := conf.Search.foldl (fun ns suffix =>
      let fqdn := name' ++ suffix
      if avoidDNS fqdn = false ∧ fqdn.length ≤ 254 then ns ++ [fqdn] else ns) names
    let names := if ¬hasNdots ∧ avoidDNS name' = false then names ++ [name'] else names
    some names

/-- Search suffix candidates of a rooted base name: each configured suffix
appended, kept when not excluded and of total length at most 254. -/
def suffixedNames (search : List GoStr) (base : GoStr) : List GoStr :=
  search.filterMap (fun suffix =>
    let fqdn := base ++ suffix
    if avoidDNS fqdn = false ∧ fqdn.length ≤ 254 then some fqdn else none)

/-! Helper lemmas about the embedded operations. -/

theorem ensureRooted_isRooted (s : GoStr) : isRooted (ensureRooted s) = true := by
  unfold ensureRooted
  split
  · assumption
  · simp [isRooted, List.getLast?_concat]

theorem suffix_foldl (search : List GoStr) (base : GoStr) (acc : List GoStr) :
    search.foldl (fun ns suffix =>
        if avoidDNS (base ++ suffix) = false ∧ (base ++ suffix).length ≤ 254
        then ns ++ [base ++ suffix] else ns) acc
      = acc ++ suffixedNames search base := by
  induction search generalizing acc with
  | nil => simp [suffixedNames]
  | cons s t ih =>
    by_cases h : avoidDNS (base ++ s) = false ∧ (base ++ s).length ≤ 254
    · simp only [List.foldl_cons, suffixedNames, List.filterMap_cons]
      rw [if_pos h, if_pos h, ih]
      simp [suffixedNames]
    · simp only [List.foldl_cons, suffixedNames, List.filterMap_cons]
      rw [if_neg h, if_neg h, ih]
      simp [suffixedNames]

theorem nameList_reject (conf : DnsConfig) (name : GoStr)
    (h : name.length > 254 ∨ (name.length = 254 ∧ isRooted name = false)) :
    nameList conf name = none := by
  unfold nameList
  rw [if_pos h]

theorem nameList_rooted (conf : DnsConfig) (name : GoStr)
    (hr : isRooted name = true) (hl : name.length ≤ 254) :
    nameList conf name = if avoidDNS name then none else some [name] := by
  have hno : ¬(name.length > 254 ∨ (name.length = 254 ∧ isRooted name = false)) := by
    rintro (h | ⟨h1, h2⟩)
    · omega
    · rw [hr] at h2
      exact absurd h2 (by decide)
  unfold nameList
  rw [if_neg hno, if_pos hr]

theorem nameList_unrooted (conf : DnsConfig) (name : GoStr)
    (hr : isRooted name = false) (hl : name.length ≤ 253) :
    nameList conf name = some (
      if conf.Ndots ≤ countDots name then
        (if avoidDNS (name ++ ['.']) = false then
          (name ++ ['.']) :: suffixedNames conf.Search (name ++ ['.'])
        else suffixedNames conf.Search (name ++ ['.']))
      else
        suffixedNames conf.Search (name ++ ['.']) ++
          (if avoidDNS (name ++ ['.']) = false then [name ++ ['.']] else [])) := by
  have hno : ¬(name.length > 254 ∨ (name.length = 254 ∧ isRooted name = false)) := by
    rintro (h | ⟨h1, h2⟩) <;> omega
  have hr2 : ¬isRooted name = true := by simp [hr]
  unfold nameList
  rw [if_neg hno, if_neg hr2]
  dsimp only
  rw [suffix_foldl]
  by_cases hn : conf.Ndots ≤ countDots name <;>
    by_cases ha : avoidDNS (name ++ ['.']) = false <;>
      simp [hn, ha]

theorem mem_suffixedNames {search : List GoStr} {base s : GoStr}
    (h : s ∈ suffixedNames search base) :
    ∃ suffix ∈ search, s = base ++ suffix ∧ avoidDNS s = false ∧ s.length ≤ 254 := by
  unfold suffixedNames at h
  rw [List.mem_filterMap] at h
  obtain ⟨suffix, hmem, heq⟩ := h
  dsimp only at heq
  by_cases hc : avoidDNS (base ++ suffix) = false ∧ (base ++ suffix).length ≤ 254
  · rw [if_pos hc] at heq
    obtain rfl := Option.some.inj heq
    exact ⟨suffix, hmem, rfl, hc⟩
  · rw [if_neg hc] at heq
    cases heq

/-- Claim C1 states that for a non-rooted name passing the length check the
bare rooted name comes before all suffixed candidates when the dot count
reaches `ndots`; this fails when the bare rooted name is excluded by the
`.onion` policy: with `ndots = 1` and search `["example.com."]`, the name
`a.onion` has dot count 1 ≥ 1 yet the returned list is only the suffixed
candidate and the bare rooted name is absent. -/
theorem nameList_ndots_order_cex :
    nameList { Ndots := 1, Search := [gs "example.com."] } (gs "a.onion")
        = some [gs "a.onion.example.com."]
      ∧ 1 ≤ countDots (gs "a.onion")
      ∧ gs "a.onion." ∉ [gs "a.onion.example.com."] :=
  ⟨by decide, by decide, by decide⟩

/-- Claim C1 (amended): for every non-rooted query name that passes the
length check, when the dot count reaches `ndots` the bare rooted name comes
first when it is not excluded and is absent when excluded, followed by the
suffixed candidates in search order; when the dot count is below `ndots` the
suffixed candidates come first and the bare rooted name is appended last
unless excluded. -/
theorem nameList_ndots_order (conf : DnsConfig) (name : GoStr)
    (hr : isRooted name = false) (hl : name.length ≤ 253) :
    nameList conf name = some (
      if conf.Ndots ≤ countDots name then
        (if avoidDNS (name ++ ['.']) = false then
          (name ++ ['.']) :: suffixedNames conf.Search (name ++ ['.'])
        else suffixedNames conf.Search (name ++ ['.']))
      else
        suffixedNames conf.Search (name ++ ['.']) ++
          (if avoidDNS (name ++ ['.']) = false then [name ++ ['.']] else [])) :=
  nameList_unrooted conf name hr hl

/-- Witness for C1, which is also the concrete scenario of the claim:
`nameList "host"` with search `["example.com."]` and `ndots 2` returns the
suffixed candidate first and the bare rooted name last. -/
theorem nameList_ndots_order_witness :
    nameList { Ndots := 2, Search := [gs "example.com."] } (gs "host")
      = some [gs "host.example.com.", gs "host."] := by
  have h := nameList_ndots_order { Ndots := 2, Search := [gs "example.com."] }
    (gs "host") (by decide) (by decide)
  exact h.trans (by decide)

/-- Claim C2: `nameList` returns nil exactly for over-long names (length
over 254, or exactly 254 and not rooted) and for rooted names excluded by
the `.onion` policy; every other name yields a non-nil (possibly empty)
list. -/
theorem nameList_none_iff (conf : DnsConfig) (name : GoStr) :
    nameList conf name = none ↔
      (name.length > 254 ∨ (name.length = 254 ∧ isRooted name = false) ∨
        (isRooted name = true ∧ avoidDNS name = true)) := by
  by_cases h1 : name.length > 254 ∨ (name.length = 254 ∧ isRooted name = false)
  · rw [nameList_reject conf name h1]
    rcases h1 with h | h
    · simp [h]
    · simp [h.1, h.2]
  · have hle : name.length ≤ 254 := by omega
    cases hr : isRooted name
    · have hl : name.length ≤ 253 := by
        rcases Nat.lt_or_ge name.length 254 with h | h
        · omega
        · exact absurd (Or.inr ⟨by omega, hr⟩) h1
      rw [nameList_unrooted conf name hr hl]
      simp
      omega
    · rw [nameList_rooted conf name hr hle]
      cases ha : avoidDNS name
      · simp [ha]
        omega
      · simp [ha, hr]

/-- Claim C3: every candidate returned by `nameList` has length at most
254: suffixed candidates are filtered by that bound and the bare rooted
name is within it because the input passed the length check. -/
theorem nameList_max_length (conf : DnsConfig) (name : GoStr)
    (res : List GoStr) (s : GoStr)
    (hres : nameList conf name = some res) (hs : s ∈ res) :
    s.length ≤ 254 := by
  by_cases h1 : name.length > 254 ∨ (name.length = 254 ∧ isRooted name = false)
  · rw [nameList_reject conf name h1] at hres
    cases hres
  · have hle : name.length ≤ 254 := by omega
    cases hr : isRooted name
    · have hl : name.length ≤ 253 := by
        rcases Nat.lt_or_ge name.length 254 with h | h
        · omega
        · exact absurd (Or.inr ⟨by omega, hr⟩) h1
      rw [nameList_unrooted conf name hr hl] at hres
      obtain rfl := Option.some.inj hres
      have hbare : (name ++ ['.']).length ≤ 254 := by
        simp
        omega
      have hsuf : s ∈ suffixedNames conf.Search (name ++ ['.']) → s.length ≤ 254 := by
        intro hmem
        obtain ⟨suffix, _, _, _, hlen⟩ := mem_suffixedNames hmem
        exact hlen
      split at hs
      · split at hs
        · rcases List.mem_cons.mp hs with rfl | hmem
          · exact hbare
          · exact hsuf hmem
        · exact hsuf hs
      · rcases List.mem_append.mp hs with hmem | hmem
        · exact hsuf hmem
        · split at hmem
          · rw [List.mem_singleton] at hmem
            subst hmem
            exact hbare
          · cases hmem
    · rw [nameList_rooted conf name hr hle] at hres
      split at hres
      · cases hres
      · obtain rfl := Option.some.inj hres
        rw [List.mem_singleton] at hs
        subst hs
        exact hle

/-- Witness for C3 at a concrete configuration and name. -/
theorem nameList_max_length_witness :
    nameList { Ndots := 1, Search := [gs "example.com."] } (gs "host")
        = some [gs "host.example.com.", gs "host."]
      ∧ gs "host.example.com." ∈ [gs "host.example.com.", gs "host."]
      ∧ (gs "host.example.com.").length ≤ 254 :=
  ⟨by decide, by decide,
    nameList_max_length { Ndots := 1, Search := [gs "example.com."] } (gs "host")
      [gs "host.example.com.", gs "host."] (gs "host.example.com.")
      (by decide) (by decide)⟩

/-- Rooted names are non-empty, so `avoidDNS` on them strips the trailing
dot and tests the case-folded `.onion` suffix. -/
theorem avoidDNS_rooted {name : GoStr} (hr : isRooted name = true) :
    avoidDNS name = hasSuffixFold name.dropLast (gs ".onion") := by
  cases name with
  | nil => cases hr
  | cons c t =>
    unfold avoidDNS
    rw [if_neg (by simp), if_pos hr]

/-- Claim C4: for a rooted query name passing the length check, `nameList`
ignores the search list entirely: it returns nil when the name (with its
trailing root dot removed) ends in `.onion` under case folding, and the
singleton list of the name itself otherwise. -/
theorem nameList_rooted_policy (conf : DnsConfig) (name : GoStr)
    (hr : isRooted name = true) (hl : name.length ≤ 254) :
    nameList conf name =
      if hasSuffixFold name.dropLast (gs ".onion") then none else some [name] := by
  rw [nameList_rooted conf name hr hl, avoidDNS_rooted hr]

/-- Witness for C4: a rooted `.onion` name is rejected and an ordinary
rooted name is returned alone, whatever the configuration. -/
theorem nameList_rooted_policy_witness :
    nameList { Ndots := 5, Search := [gs "example.com."] } (gs "x.onion.") = none
      ∧ nameList { Ndots := 5, Search := [gs "example.com."] } (gs "host.")
          = some [gs "host."] := by
  have h1 := nameList_rooted_policy { Ndots := 5, Search := [gs "example.com."] }
    (gs "x.onion.") (by decide) (by decide)
  have h2 := nameList_rooted_policy { Ndots := 5, Search := [gs "example.com."] }
    (gs "host.") (by decide) (by decide)
  exact ⟨h1.trans (by decide), h2.trans (by decide)⟩

set_option maxRecDepth 10000 in
/-- Claim C9 states that with `ndots ≥ 1` and a non-empty search list the
empty query name expands to a dotted candidate for every non-`.onion`
suffix followed by the bare root; this fails for a suffix so long that the
candidate exceeds 254 characters: such a suffix is skipped even though it
is not under `.onion`. -/
theorem nameList_empty_name_cex :
    nameList { Ndots := 1, Search := [List.replicate 254 'a'] } [] = some [['.']]
      ∧ avoidDNS ('.' :: List.replicate 254 'a') = false
      ∧ ('.' :: List.replicate 254 'a') ∉ [(['.'] : GoStr)] :=
  ⟨by decide, by decide, by decide⟩

/-- Claim C9 (amended): the empty query name is not rejected; with
`ndots ≥ 1` and a non-empty search list it returns the candidate
`"." ++ suffix` for each suffix that is neither under `.onion` nor longer
than 253 characters, followed by the bare root `"."`, so the result is
neither nil nor empty. -/
theorem nameList_empty_name (conf : DnsConfig)
    (hnd : 1 ≤ conf.Ndots) (_hs : conf.Search ≠ []) :
    nameList conf [] = some (suffixedNames conf.Search ['.'] ++ [['.']]) := by
  have h := nameList_unrooted conf [] (by decide) (by decide)
  rw [h]
  have hn : ¬conf.Ndots ≤ countDots [] := by
    simp [countDots]
    omega
  rw [if_neg hn, if_pos (by decide : avoidDNS ([] ++ ['.']) = false)]
  simp

/-- Witness for C9 at a concrete configuration. -/
theorem nameList_empty_name_witness :
    nameList { Ndots := 1, Search := [gs "example.com."] } []
      = some [gs ".example.com.", gs "."] := by
  have h := nameList_empty_name { Ndots := 1, Search := [gs "example.com."] }
    (by decide) (by decide)
  exact h.trans (by decide)

/-- Claim C10: the `.onion` exclusion needs a label before the suffix: the
rooted name `onion.` is returned as its own singleton list whatever the
configuration, while the empty name is always excluded by `avoidDNS`. -/
theorem nameList_onion_label :
    (∀ conf : DnsConfig, nameList conf (gs "onion.") = some [gs "onion."])
      ∧ avoidDNS [] = true := by
  constructor
  · intro conf
    have h := nameList_rooted conf (gs "onion.") (by decide) (by decide)
    exact h.trans (by decide)
  · decide

theorem indexByte_spec : ∀ (s : GoStr) (b : Char) (i : Nat),
    indexByte s b = some i → ∃ h : i < s.length, s.get ⟨i, h⟩ = b := by
  intro s
  induction s with
  | nil => intro b i h; cases h
  | cons c t ih =>
    intro b i h
    unfold indexByte at h
    split at h
    · obtain rfl := Option.some.inj h
      exact ⟨Nat.succ_pos _, by assumption⟩
    · rw [Option.map_eq_some'] at h
      obtain ⟨j, hj, rfl⟩ := h
      obtain ⟨hlt, hget⟩ := ih b j hj
      exact ⟨Nat.succ_lt_succ hlt, hget⟩

/-- Claim C7: the default search list is empty when the hostname provider
fails; it is the single rooted suffix after the first dot when the hostname
has an interior dot; and it is empty (never a spurious empty suffix) when
every character before the last one differs from a dot. -/
theorem dnsDefaultSearch_cases :
    dnsDefaultSearch none = []
      ∧ (∀ (hn : GoStr) (i : Nat), indexByte hn '.' = some i → i + 1 < hn.length →
          dnsDefaultSearch (some hn) = [ensureRooted (hn.drop (i + 1))])
      ∧ (∀ hn : GoStr, hn.dropLast.all (fun c => c != '.') = true →
          dnsDefaultSearch (some hn) = []) := by
  refine ⟨rfl, ?_, ?_⟩
  · intro hn i h hi
    unfold dnsDefaultSearch
    dsimp only
    rw [h]
    dsimp only
    rw [if_pos hi]
  · intro hn hno
    unfold dnsDefaultSearch
    dsimp only
    cases h : indexByte hn '.' with
    | none => rfl
    | some i =>
      dsimp only
      obtain ⟨hlt, hget⟩ := indexByte_spec hn '.' i h
      rw [if_neg ?_]
      intro hi
      have hdl : i < hn.dropLast.length := by
        rw [List.length_dropLast]
        omega
      have hmem : hn.dropLast.get ⟨i, hdl⟩ ∈ hn.dropLast := List.get_mem _ _ _
      have hall := List.all_eq_true.mp hno _ hmem
      have hsame : hn.dropLast.get ⟨i, hdl⟩ = hn.get ⟨i, hlt⟩ := by
        rw [List.get_eq_getElem, List.get_eq_getElem, List.getElem_dropLast]
      rw [hsame, hget] at hall
      simp at hall

/-- Witness for C7 at concrete hostnames: an interior dot yields the rooted
tail after the first dot, while a single-label name and a name with only a
trailing dot yield an empty list. -/
theorem dnsDefaultSearch_cases_witness :
    dnsDefaultSearch (some (gs "host.example.com")) = [gs "example.com."]
      ∧ dnsDefaultSearch (some (gs "host")) = []
      ∧ dnsDefaultSearch (some (gs "host.")) = [] := by
  refine ⟨?_, ?_, ?_⟩
  · exact (dnsDefaultSearch_cases.2.1 (gs "host.example.com") 4 (by decide)
      (by decide)).trans (by decide)
  · exact dnsDefaultSearch_cases.2.2 (gs "host") (by decide)
  · exact dnsDefaultSearch_cases.2.2 (gs "host.") (by decide)

/-- Invariants of a configuration record stated by the spec: clamped
`ndots`, minimum timeout and attempts, at most three servers and a rooted
search list. -/
def GoodConf (c : DnsConfig) : Prop :=
  c.Ndots ≤ 15 ∧ second ≤ c.Timeout ∧ 1 ≤ c.Attempts ∧
    c.Servers.length ≤ 3 ∧ ∀ s ∈ c.Search, isRooted s = true

theorem le_mul_second {n : Nat} (h : 1 ≤ n) : second ≤ n * second :=
  calc second = 1 * second := (one_mul second).symm
    _ ≤ n * second := Nat.mul_le_mul_right second h

theorem dnsDefaultSearch_rooted (host : Option GoStr) :
    ∀ s ∈ dnsDefaultSearch host, isRooted s = true := by
  intro s hs
  cases host with
  | none => cases hs
  | some hn =>
    unfold dnsDefaultSearch at hs
    dsimp only at hs
    split at hs
    · split at hs
      · rw [List.mem_singleton] at hs
        subst hs
        exact ensureRooted_isRooted _
      · cases hs
    · cases hs

theorem processOption_good (c : DnsConfig) (s : GoStr) (h : GoodConf c) :
    GoodConf (processOption c s) := by
  obtain ⟨h1, h2, h3, h4, h5⟩ := h
  unfold processOption
  split_ifs
  · refine ⟨?_, h2, h3, h4, h5⟩
    dsimp only
    split <;> omega
  · refine ⟨h1, ?_, h3, h4, h5⟩
    dsimp only
    exact le_mul_second (by split <;> omega)
  · refine ⟨h1, h2, ?_, h4, h5⟩
    dsimp only
    split <;> omega
  all_goals exact ⟨h1, h2, h3, h4, h5⟩

theorem foldl_processOption_good (args : List GoStr) :
    ∀ c : DnsConfig, GoodConf c → GoodConf (args.foldl processOption c) := by
  induction args with
  | nil => exact fun c h => h
  | cons a t ih => exact fun c h => ih _ (processOption_good c a h)

theorem processLine_good (isIP : GoStr → Bool) (c : DnsConfig) (line : GoStr)
    (h : GoodConf c) : GoodConf (processLine isIP c line) := by
  obtain ⟨h1, h2, h3, h4, h5⟩ := h
  unfold processLine
  split
  · exact ⟨h1, h2, h3, h4, h5⟩
  split
  · exact ⟨h1, h2, h3, h4, h5⟩
  rename_i f0 args _
  split_ifs with hn hd hsr ho hlk
  · -- nameserver
    cases args with
    | nil => exact ⟨h1, h2, h3, h4, h5⟩
    | cons a1 rest =>
      dsimp only
      split
      · rename_i hcond
        refine ⟨h1, h2, h3, ?_, h5⟩
        rw [List.length_append]
        have := hcond.1
        simp only [List.length_singleton]
        omega
      · exact ⟨h1, h2, h3, h4, h5⟩
  · -- domain
    cases args with
    | nil => exact ⟨h1, h2, h3, h4, h5⟩
    | cons a1 rest =>
      refine ⟨h1, h2, h3, h4, ?_⟩
      intro s hs
      rw [List.mem_singleton] at hs
      subst hs
      exact ensureRooted_isRooted _
  · -- search
    refine ⟨h1, h2, h3, h4, ?_⟩
    intro s hs
    rw [List.mem_filterMap] at hs
    obtain ⟨a, _, hfa⟩ := hs
    dsimp only at hfa
    split at hfa
    · cases hfa
    · obtain rfl := Option.some.inj hfa
      exact ensureRooted_isRooted _
  · -- options
    exact foldl_processOption_good args c ⟨h1, h2, h3, h4, h5⟩
  · -- lookup
    exact ⟨h1, h2, h3, h4, h5⟩
  · -- unknown keyword
    exact ⟨h1, h2, h3, h4, h5⟩

theorem foldl_processLine_good (isIP : GoStr → Bool) (lines : List GoStr) :
    ∀ c : DnsConfig, GoodConf c → GoodConf (lines.foldl (processLine isIP) c) := by
  induction lines with
  | nil => exact fun c h => h
  | cons a t ih => exact fun c h => ih _ (processLine_good isIP c a h)

theorem serversDefault_good {c : DnsConfig} (h : GoodConf c) :
    GoodConf (if c.Servers.isEmpty then { c with Servers := defaultNS } else c) := by
  split
  · exact ⟨h.1, h.2.1, h.2.2.1, by show defaultNS.length ≤ 3; decide, h.2.2.2.2⟩
  · exact h

theorem searchDefault_good (host : Option GoStr) {c : DnsConfig} (h : GoodConf c) :
    GoodConf (if c.Search.isEmpty then { c with Search := dnsDefaultSearch host } else c) := by
  split
  · exact ⟨h.1, h.2.1, h.2.2.1, h.2.2.2.1, dnsDefaultSearch_rooted host⟩
  · exact h

/-- Claim C5: whatever the configuration source holds, the record built by
`dnsReadConfig` has clamped `ndots` (at most 15), a timeout of at least one
second, at least one attempt, at most three servers, and only rooted
entries in its search list. -/
theorem dnsReadConfig_invariants (isIPAddr : GoStr → Bool) (hostname : Option GoStr)
    (input : Option (Option Nat × List GoStr)) :
    (dnsReadConfig isIPAddr hostname input).Ndots ≤ 15
      ∧ second ≤ (dnsReadConfig isIPAddr hostname input).Timeout
      ∧ 1 ≤ (dnsReadConfig isIPAddr hostname input).Attempts
      ∧ (dnsReadConfig isIPAddr hostname input).Servers.length ≤ 3
      ∧ ∀ s ∈ (dnsReadConfig isIPAddr hostname input).Search, isRooted s = true := by
  suffices h : GoodConf (dnsReadConfig isIPAddr hostname input) from h
  have hfail : GoodConf
      { Ndots := 1, Timeout := 5 * second, Attempts := 2,
        Servers := defaultNS, Search := dnsDefaultSearch hostname, Err := true } :=
    ⟨by show (1:Nat) ≤ 15; decide, le_mul_second (by omega), by show (1:Nat) ≤ 2; decide,
      by show defaultNS.length ≤ 3; decide, dnsDefaultSearch_rooted hostname⟩
  rcases input with _ | ⟨_ | t, lines⟩
  · exact hfail
  · exact hfail
  · have hinit : GoodConf
        { Ndots := 1, Timeout := 5 * second, Attempts := 2, Mtime := t } :=
      ⟨by show (1:Nat) ≤ 15; decide, le_mul_second (by omega),
        by show (1:Nat) ≤ 2; decide, by show List.length ([] : List GoStr) ≤ 3; decide,
        by simp⟩
    exact searchDefault_good hostname
      (serversDefault_good (foldl_processLine_good isIPAddr lines _ hinit))

/-- Claim C6: when opening the source fails, and likewise when reading its
modification time fails, `dnsReadConfig` returns at once the record with
the default servers, the derived default search list, a non-nil error and
the default `ndots`, timeout and attempts. -/
theorem dnsReadConfig_open_failure (isIPAddr : GoStr → Bool) (hostname : Option GoStr)
    (lines : List GoStr) :
    dnsReadConfig isIPAddr hostname none =
        { Ndots := 1, Timeout := 5 * second, Attempts := 2,
          Servers := [gs "127.0.0.1:53", gs "[::1]:53"],
          Search := dnsDefaultSearch hostname, Err := true }
      ∧ dnsReadConfig isIPAddr hostname (some (none, lines)) =
        { Ndots := 1, Timeout := 5 * second, Attempts := 2,
          Servers := [gs "127.0.0.1:53", gs "[::1]:53"],
          Search := dnsDefaultSearch hostname, Err := true } :=
  ⟨rfl, rfl⟩

/-- Lines that reach the default branch of the keyword switch: not a
comment, tokenizing to a non-empty field list whose first field is none of
the recognized keywords. -/
def IsUnknownKeywordLine (line : GoStr) : Prop :=
  ¬(line.head? = some ';' ∨ line.head? = some '#') ∧
    ∃ f0 args, getFields line = f0 :: args ∧
      f0 ∉ [gs "nameserver", gs "domain", gs "search", gs "options", gs "lookup"]

theorem processOption_unknown_mono (c : DnsConfig) (s : GoStr)
    (h : c.UnknownOpt = true) : (processOption c s).UnknownOpt = true := by
  unfold processOption
  split_ifs <;> first | exact h | rfl

theorem foldl_processOption_unknown_mono (args : List GoStr) :
    ∀ c : DnsConfig, c.UnknownOpt = true →
      (args.foldl processOption c).UnknownOpt = true := by
  induction args with
  | nil => exact fun c h => h
  | cons a t ih => exact fun c h => ih _ (processOption_unknown_mono c a h)

theorem processLine_unknown_mono (isIP : GoStr → Bool) (c : DnsConfig) (line : GoStr)
    (h : c.UnknownOpt = true) : (processLine isIP c line).UnknownOpt = true := by
  unfold processLine
  split
  · exact h
  split
  · exact h
  split_ifs
  · split
    · split
      · exact h
      · exact h
    · exact h
  · split
    · exact h
    · exact h
  · exact h
  · exact foldl_processOption_unknown_mono _ c h
  · exact h
  · rfl

theorem foldl_processLine_unknown_mono (isIP : GoStr → Bool) (lines : List GoStr) :
    ∀ c : DnsConfig, c.UnknownOpt = true →
      (lines.foldl (processLine isIP) c).UnknownOpt = true := by
  induction lines with
  | nil => exact fun c h => h
  | cons a t ih => exact fun c h => ih _ (processLine_unknown_mono isIP c a h)

theorem processLine_unknown_set (isIP : GoStr → Bool) (c : DnsConfig) (line : GoStr)
    (h : IsUnknownKeywordLine line) : (processLine isIP c line).UnknownOpt = true := by
  obtain ⟨hc, f0, args, hf, hk⟩ := h
  simp only [List.mem_cons, List.mem_singleton, List.not_mem_nil, or_false] at hk
  push_neg at hk
  obtain ⟨k1, k2, k3, k4, k5⟩ := hk
  unfold processLine
  rw [if_neg hc, hf]
  dsimp only
  rw [if_neg k1, if_neg k2, if_neg k3, if_neg k4, if_neg k5]

theorem searchDefault_unknown (host : Option GoStr) (c : DnsConfig) :
    (if c.Search.isEmpty then { c with Search := dnsDefaultSearch host } else c).UnknownOpt
      = c.UnknownOpt := by
  split <;> rfl

theorem serversDefault_unknown (c : DnsConfig) :
    (if c.Servers.isEmpty then { c with Servers := defaultNS } else c).UnknownOpt
      = c.UnknownOpt := by
  split <;> rfl

theorem dnsReadConfig_unknown_eq (isIP : GoStr → Bool) (host : Option GoStr)
    (t : Nat) (lines : List GoStr) :
    (dnsReadConfig isIP host (some (some t, lines))).UnknownOpt
      = (lines.foldl (processLine isIP)
          { Ndots := 1, Timeout := 5 * second, Attempts := 2, Mtime := t }).UnknownOpt := by
  unfold dnsReadConfig
  dsimp only
  rw [searchDefault_unknown, serversDefault_unknown]

/-- Claim C8 states that a `nameserver`, `domain` or `search` line with no
argument sets `unknownOpt`; in fact such lines are matched by their keyword
case and ignored without setting the flag, as the concrete run on the line
`nameserver` alone shows. -/
theorem dnsReadConfig_noarg_cex :
    (dnsReadConfig (fun _ => false) none (some (some 0, [gs "nameserver"]))).UnknownOpt
      = false := by decide

/-- Claim C8 (amended): a line whose first field is an unrecognized keyword
sets `unknownOpt = true` on the resulting record, while `nameserver`,
`domain` and `search` lines with no argument are ignored and leave the flag
clear. -/
theorem dnsReadConfig_unknown_keyword :
    (∀ (isIPAddr : GoStr → Bool) (hostname : Option GoStr) (t : Nat)
        (lines : List GoStr) (line : GoStr),
      line ∈ lines → IsUnknownKeywordLine line →
      (dnsReadConfig isIPAddr hostname (some (some t, lines))).UnknownOpt = true)
    ∧ (dnsReadConfig (fun _ => false) none
        (some (some 0, [gs "nameserver", gs "domain", gs "search"]))).UnknownOpt
      = false := by
  constructor
  · intro isIP host t lines line hmem hline
    rw [dnsReadConfig_unknown_eq]
    obtain ⟨l1, l2, rfl⟩ := List.append_of_mem hmem
    rw [List.foldl_append, List.foldl_cons]
    exact foldl_processLine_unknown_mono isIP l2 _
      (processLine_unknown_set isIP _ line hline)
  · decide

/-- Witness for C8 at a concrete unrecognized-keyword line. -/
theorem dnsReadConfig_unknown_keyword_witness :
    (dnsReadConfig (fun _ => false) none (some (some 0, [gs "bogus x"]))).UnknownOpt
      = true :=
  dnsReadConfig_unknown_keyword.1 (fun _ => false) none 0 [gs "bogus x"] (gs "bogus x")
    (by decide) ⟨by decide, gs "bogus", [gs "x"], by decide, by decide⟩

end Dnsconfig
